import Mathlib

/-!
Verification of the particle-filter localizer of `src/particle_filter/particle_filter.cc`
against its natural-language specification.

Modelling conventions (shallow embedding):
* C++ `float` values are modelled as real numbers (`ℝ`).
* The single float that the source ever sets to `-inf`
  (`max_log_particle_weight_`, set at the top of `ObserveLaser`) is modelled as
  `Option ℝ`, with `none` standing for the `-inf` sentinel; a non-finite value
  produced downstream of that sentinel (e.g. `exp(lw - (-inf)) = +inf` inside
  `GetLocation`) is likewise modelled as `none`.
* The floating-point `exp` function is a parameter `E : ℝ → ℝ` of the
  definitions that use it; the properties of `exp` a theorem needs (e.g.
  nonnegativity) appear as hypotheses.
* The random source `rng_` is modelled as a stream `rng : ℕ → ℝ` of
  unit draws together with a cursor `rngIdx`; `UniformRandom(a, b)` consumes
  one draw `r` and yields `a + (b - a) * r`, `Gaussian(mu, sigma)` consumes one
  draw `r` and yields `mu + sigma * r` (the reparametrisation of a Gaussian).
* The `while` loop of the low-variance resampler is embedded with an explicit
  fuel argument `F`; theorems about it hypothesise enough fuel.
* The file-scope statics `updates_since_last_resample_` and `last_update_loc_`
  of the source are fields of the filter state (they are per-filter data,
  as the spec's design notes observe).
-/

/-- Planar point / vector, map frame (`Eigen::Vector2f`). -/
abbrev Point : Type := ℝ × ℝ

/-- Euclidean norm of a planar vector (`Eigen .norm()`). -/
noncomputable def pnorm (v : Point) : ℝ := Real.sqrt (v.1 ^ 2 + v.2 ^ 2)

/-- Euclidean distance between two points (`(a - b).norm()` in the source). -/
noncomputable def pdist (a b : Point) : ℝ := pnorm (a.1 - b.1, a.2 - b.2)

/-- Planar cross product, used by the segment-intersection test. -/
def pcross (a b : Point) : ℝ := a.1 * b.2 - a.2 * b.1

/-- Line segment (`geometry::line2f`), from `p0` to `p1`. -/
structure Seg where
  p0 : Point
  p1 : Point

/-- Modelled from the spec: `line2f::Intersection` of the shared library (not
under `src/`).  Spec 4.1: "Intersection uses parametric line-line with the
standard determinant test; on parallel/degenerate input returns no-hit."
Segment `l` meets segment `r` where `l.p0 + t*(l.p1-l.p0) = r.p0 + u*(r.p1-r.p0)`
with `t, u ∈ [0,1]`. -/
noncomputable def segIntersection (l r : Seg) : Option Point :=
  let d1 : Point := (l.p1.1 - l.p0.1, l.p1.2 - l.p0.2)
  let d2 : Point := (r.p1.1 - r.p0.1, r.p1.2 - r.p0.2)
  let det := pcross d1 d2
  if det = 0 then none
  else
    let q : Point := (r.p0.1 - l.p0.1, r.p0.2 - l.p0.2)
    let t := pcross q d2 / det
    let u := pcross q d1 / det
    if 0 ≤ t ∧ t ≤ 1 ∧ 0 ≤ u ∧ u ≤ 1 then
      some (l.p0.1 + t * d1.1, l.p0.2 + t * d1.2)
    else none

/-- Modelled from the spec: `math_util::AngleDiff` of the shared library (not
under `src/`); spec 3: headings are "wrapped to (−π, π]". -/
noncomputable def wrapAngle (x : ℝ) : ℝ :=
  x - 2 * Real.pi * ⌈(x - Real.pi) / (2 * Real.pi)⌉

/-- Modelled from the spec: difference of two angles wrapped to (−π, π]. -/
noncomputable def angleDiff (a b : ℝ) : ℝ := wrapAngle (a - b)

/-- A pose hypothesis with its log-weight (`particle_filter::Particle`). -/
structure Particle where
  loc : Point
  angle : ℝ
  log_weight : ℝ

/-- Placeholder particle used to give C++ `operator[]` a total meaning. -/
def defaultParticle : Particle := ⟨(0, 0), 0, 0⟩

/-- State owned by `ParticleFilter`, together with the two file-scope statics
(`updates_since_last_resample_`, `last_update_loc_`), the RNG stream, and the
configured particle count `FLAGS_num_particles`. -/
structure FilterState where
  particles : List Particle
  prev_odom_loc : Point
  prev_odom_angle : ℝ
  odom_initialized : Bool
  mapLines : List Seg
  maxLog : Option ℝ
  last_update_loc : Point
  counter : ℕ
  init_offset_angle : ℝ
  rng : ℕ → ℝ
  rngIdx : ℕ
  numParticles : ℕ

/-- Observation variance `var_obs_`, set to 1.0 in the constructor. -/
def var_obs : ℝ := 1

/-- Short-tolerance `d_short_`, set to 0.5 in the constructor. -/
noncomputable def d_short : ℝ := 0.5

/-- Long-tolerance `d_long_`, set to 0.5 in the constructor. -/
noncomputable def d_long : ℝ := 0.5

/-- Laser origin: the pose plus a fixed 0.2 m forward offset along heading
(`loc + 0.2*Vector2f(cos(angle), sin(angle))`). -/
noncomputable def lidarLoc (loc : Point) (angle : ℝ) : Point :=
  (loc.1 + 0.2 * Real.cos angle, loc.2 + 0.2 * Real.sin angle)

/-- Ray angle of scan index `i`:
`angle + 10.0*i_scan/num_ranges*(angle_max-angle_min) + angle_min`. -/
noncomputable def rayAngle (angle : ℝ) (numRanges : ℕ) (amin amax : ℝ) (i : ℕ) : ℝ :=
  angle + 10 * (i : ℝ) / (numRanges : ℝ) * (amax - amin) + amin

/-- The query segment of one ray, spanning `range_min` to `range_max` from the
laser origin along the ray angle. -/
noncomputable def raySeg (lid : Point) (ra rmin rmax : ℝ) : Seg :=
  ⟨(lid.1 + rmin * Real.cos ra, lid.2 + rmin * Real.sin ra),
   (lid.1 + rmax * Real.cos ra, lid.2 + rmax * Real.sin ra)⟩

/-- The initial candidate intersection: the far end of the ray
(`lidar_loc + range_max*(cos, sin)`), paired with the initial candidate
distance `range_max`. -/
noncomputable def farPoint (lid : Point) (ra rmax : ℝ) : Point :=
  (lid.1 + rmax * Real.cos ra, lid.2 + rmax * Real.sin ra)

/-- Inner loop of `GetPredictedPointCloud`: sweep the map lines, keeping the
intersection whose Euclidean distance to `loc` (the particle location) is
smallest so far; candidates start at `(farPt, rmax)` and are replaced on a
strictly smaller distance. -/
noncomputable def nearestIntersection (mapL : List Seg) (ray : Seg) (loc : Point)
    (farPt : Point) (rmax : ℝ) : Point :=
  (mapL.foldl
    (fun best l =>
      match segIntersection l ray with
      | none => best
      | some pt => if pdist pt loc < best.2 then (pt, pdist pt loc) else best)
    (farPt, rmax)).1

/-- `ParticleFilter::GetPredictedPointCloud`: one predicted scan point per ray,
`num_ranges/10` rays. -/
noncomputable def GetPredictedPointCloud (mapL : List Seg) (loc : Point) (angle : ℝ)
    (numRanges : ℕ) (rmin rmax amin amax : ℝ) : List Point :=
  (List.range (numRanges / 10)).map fun i =>
    let ra := rayAngle angle numRanges amin amax i
    nearestIntersection mapL (raySeg (lidarLoc loc angle) ra rmin rmax) loc
      (farPoint (lidarLoc loc angle) ra rmax) rmax

/-- `ParticleFilter::Update`: per-particle weight update.  Reads the member
`odom_initialized_` (passed here as `odomInit`), computes the predicted cloud,
lockstep-subsamples the measured ranges (`trimmed_ranges[i] = ranges[ratio*i]`),
and accumulates the per-ray log-likelihood; note that the usable-band test on
the measurement reads `ranges[i]`, the raw measurement at index `i`. -/
noncomputable def Update (odomInit : Bool) (mapL : List Seg) (ranges : List ℝ)
    (rmin rmax amin amax : ℝ) (p : Particle) : Particle :=
  if odomInit = false then p else
  let cloud := GetPredictedPointCloud mapL p.loc p.angle ranges.length rmin rmax amin amax
  let ratio := ranges.length / cloud.length
  let trimmed := (List.range cloud.length).map fun i => ranges.getD (ratio * i) 0
  let lid := lidarLoc p.loc p.angle
  let logErrorSum := (List.range cloud.length).foldl
    (fun acc i =>
      let pr := pdist (cloud.getD i (0, 0)) lid
      if pr > rmax ∨ pr < rmin ∨ ranges.getD i 0 > 0.95 * rmax ∨
          ranges.getD i 0 < 1.05 * rmin then acc
      else acc + -(max (min (trimmed.getD i 0 - pr) d_long) (-d_short)) ^ 2 / var_obs)
    0
  { p with log_weight := p.log_weight + logErrorSum }

/-- Modelled from the spec's words (for comparison with `Update`): identical to
`Update`, except that the usable-band test on the measurement reads the
lockstep-subsampled measurement `ranges[stride*i]` — per the spec, the same
measurement that feeds the residual. -/
noncomputable def UpdateSpec (odomInit : Bool) (mapL : List Seg) (ranges : List ℝ)
    (rmin rmax amin amax : ℝ) (p : Particle) : Particle :=
  if odomInit = false then p else
  let cloud := GetPredictedPointCloud mapL p.loc p.angle ranges.length rmin rmax amin amax
  let ratio := ranges.length / cloud.length
  let trimmed := (List.range cloud.length).map fun i => ranges.getD (ratio * i) 0
  let lid := lidarLoc p.loc p.angle
  let logErrorSum := (List.range cloud.length).foldl
    (fun acc i =>
      let pr := pdist (cloud.getD i (0, 0)) lid
      if pr > rmax ∨ pr < rmin ∨ trimmed.getD i 0 > 0.95 * rmax ∨
          trimmed.getD i 0 < 1.05 * rmin then acc
      else acc + -(max (min (trimmed.getD i 0 - pr) d_long) (-d_short)) ^ 2 / var_obs)
    0
  { p with log_weight := p.log_weight + logErrorSum }

/-- Weight-normalisation loop of `Resample`, first effect:
`particles_[i].log_weight -= max_log_particle_weight_` for `i < N`
(indices at or beyond `N` are not visited by the source loop). -/
def decWeightsAux (m : ℝ) (N : ℕ) : ℕ → List Particle → List Particle
  | _, [] => []
  | i, p :: rest =>
      (if i < N then { p with log_weight := p.log_weight - m } else p) ::
        decWeightsAux m N (i + 1) rest

/-- Particles with the generation maximum subtracted from the first `N`
log-weights. -/
def decWeights (m : ℝ) (N : ℕ) (ps : List Particle) : List Particle :=
  decWeightsAux m N 0 ps

/-- Normalised (non-log) weight of particle `i` after the decrement:
`exp(particles_[i].log_weight)` with `E` modelling `exp`. -/
def partWeight (E : ℝ → ℝ) (ps : List Particle) (i : ℕ) : ℝ :=
  E ((ps.getD i defaultParticle).log_weight)

/-- `absolute_weight_breakpoints[i]`: cumulative sum of the first `i + 1`
normalised weights. -/
def breakpoint (E : ℝ → ℝ) (ps : List Particle) (i : ℕ) : ℝ :=
  ∑ j ∈ Finset.range (i + 1), partWeight E ps j

/-- `normalized_sum` after the loop over `i < N`. -/
def normalizedSum (E : ℝ → ℝ) (ps : List Particle) (N : ℕ) : ℝ :=
  ∑ j ∈ Finset.range N, partWeight E ps j

/-- `rng_.UniformRandom(a, b)`: consume one unit draw `r` from the stream and
return `a + (b - a) * r` together with the advanced state. -/
def uniformDraw (s : FilterState) (a b : ℝ) : ℝ × FilterState :=
  (a + (b - a) * s.rng s.rngIdx, { s with rngIdx := s.rngIdx + 1 })

/-- `rng_.Gaussian(mu, sigma)`: consume one unit draw `r` from the stream and
return `mu + sigma * r` together with the advanced state. -/
def gaussianDraw (s : FilterState) (mu sigma : ℝ) : ℝ × FilterState :=
  (mu + sigma * s.rng s.rngIdx, { s with rngIdx := s.rngIdx + 1 })

/-- The inner `while` loop of `Resample`:
`while (absolute_weight_breakpoints[i] > sample_point) { emit particles_[i];
sample_point += division_size; }`, with fuel bounding the iteration count. -/
noncomputable def emitOne (p : Particle) (c d : ℝ) :
    ℕ → ℝ → List Particle → ℝ × List Particle
  | 0, sp, acc => (sp, acc)
  | f + 1, sp, acc =>
      if c > sp then emitOne p c d f (sp + d) (acc ++ [p]) else (sp, acc)

/-- The emit loop of `Resample` over all indices `i = 0 .. N-1`. -/
noncomputable def emitLoop (E : ℝ → ℝ) (ps : List Particle) (d : ℝ) (N F : ℕ)
    (sp0 : ℝ) : List Particle :=
  ((List.range N).foldl
    (fun (st : ℝ × List Particle) i =>
      emitOne (ps.getD i defaultParticle) (breakpoint E ps i) d F st.1 st.2)
    (sp0, [])).2

/-- `ParticleFilter::Resample`, low-variance resampling.  Guard; decrement all
log-weights by the stored maximum while accumulating breakpoints; draw one
uniform sample in `[0, division_size)`-style; abort if `division_size == 0`
(the decrement and the draw are already done); otherwise emit and reset the
stored maximum to 0.  The `maxLog = none` case models the float `-inf`
sentinel, which would send every decremented log-weight to `+inf`; no caller
inside the source reaches `Resample` in that state with a nonempty particle
set, and no claim exercises it, so the model leaves the state unchanged there. -/
noncomputable def Resample (E : ℝ → ℝ) (F : ℕ) (s : FilterState) : FilterState :=
  if s.particles.isEmpty ∨ s.odom_initialized = false then s else
  match s.maxLog with
  | none => s
  | some m =>
    let N := s.numParticles
    let ps := decWeights m N s.particles
    let S := normalizedSum E ps N
    let d := S / (N : ℝ)
    let drawn := uniformDraw { s with particles := ps } 0 d
    if d = 0 then drawn.2 else
    { drawn.2 with particles := emitLoop E ps d N F drawn.1, maxLog := some 0 }

/-- `ParticleFilter::ObserveLaser`.  Unconditionally reset the stored maximum
log-weight to `-inf` (modelled `none`); gate on the distance moved since the
last sensor update; inside the gate, update every particle's weight, track the
maximum, record the update location, and run `Resample` when the counter
exceeds 5 (the counter is then reset to 0 and incremented to 1).  The returned
boolean records whether `Resample` was invoked by this call. -/
noncomputable def ObserveLaser (E : ℝ → ℝ) (F : ℕ) (ranges : List ℝ)
    (rmin rmax amin amax : ℝ) (s : FilterState) : FilterState × Bool :=
  let s0 := { s with maxLog := none }
  let dmove := pdist s0.prev_odom_loc s0.last_update_loc
  if 0.1 < dmove ∧ dmove < 1.0 then
    let ps := s0.particles.map (Update s0.odom_initialized s0.mapLines ranges rmin rmax amin amax)
    let mx := ps.foldl
      (fun (mcur : Option ℝ) p =>
        match mcur with
        | none => some p.log_weight
        | some v => if v < p.log_weight then some p.log_weight else mcur)
      (none : Option ℝ)
    let s1 : FilterState :=
      { s0 with particles := ps, maxLog := mx, last_update_loc := s0.prev_odom_loc }
    if s1.counter > 5 then ({ Resample E F s1 with counter := 1 }, true)
    else ({ s1 with counter := s1.counter + 1 }, false)
  else (s0, false)

/-- `ParticleFilter::ResetOdomVariables`. -/
def ResetOdomVariables (loc : Point) (angle : ℝ) (s : FilterState) : FilterState :=
  { s with
    init_offset_angle := angle - s.prev_odom_angle,
    last_update_loc := loc,
    prev_odom_loc := loc,
    prev_odom_angle := angle,
    counter := 0 }

/-- Rotation of a planar vector by `theta` (`Eigen::Rotation2Df`). -/
noncomputable def rot2 (theta : ℝ) (v : Point) : Point :=
  (Real.cos theta * v.1 - Real.sin theta * v.2,
   Real.sin theta * v.1 + Real.cos theta * v.2)

/-- Motion-model noise constant `k1` (translation error per unit translation). -/
noncomputable def k1 : ℝ := 0.50

/-- Motion-model noise constant `k2` (translation error per unit rotation). -/
noncomputable def k2 : ℝ := 0.25

/-- Motion-model noise constant `k3` (angular error per unit translation). -/
noncomputable def k3 : ℝ := 0.50

/-- Motion-model noise constant `k4` (angular error per unit rotation). -/
noncomputable def k4 : ℝ := 0.75

/-- `ParticleFilter::UpdateParticleLocation`: three Gaussian draws, then shift
the pose by the map-frame translation delta plus noise. -/
noncomputable def UpdateParticleLocation (transDiff : Point) (dtheta : ℝ)
    (p : Particle) (s : FilterState) : Particle × FilterState :=
  let sx := k1 * pnorm transDiff + k2 * |dtheta|
  let nx := gaussianDraw s 0 sx
  let ny := gaussianDraw nx.2 0 sx
  let st := k3 * pnorm transDiff + k4 * |dtheta|
  let nt := gaussianDraw ny.2 0 st
  ({ p with
      loc := (p.loc.1 + transDiff.1 + nx.1, p.loc.2 + transDiff.2 + ny.1),
      angle := p.angle + dtheta + nt.1 },
   nt.2)

/-- `ParticleFilter::ObserveOdometry`.  Propagate every particle when odometry
is initialised and the reported translation is under 1 m; otherwise re-baseline
via `ResetOdomVariables` and mark odometry initialised. -/
noncomputable def ObserveOdometry (loc : Point) (angle : ℝ) (s : FilterState) :
    FilterState :=
  let diff : Point := (loc.1 - s.prev_odom_loc.1, loc.2 - s.prev_odom_loc.2)
  if s.odom_initialized = true ∧ pnorm diff < 1.0 then
    let dtheta := angleDiff angle s.prev_odom_angle
    let stepped := s.particles.foldl
      (fun (acc : List Particle × FilterState) p =>
        let mapDiff := rot2 (angleDiff p.angle s.prev_odom_angle) diff
        let upd := UpdateParticleLocation mapDiff dtheta p acc.2
        (acc.1 ++ [upd.1], upd.2))
      ([], s)
    { stepped.2 with
        particles := stepped.1, prev_odom_loc := loc, prev_odom_angle := angle }
  else
    { ResetOdomVariables loc angle s with odom_initialized := true }

/-- The accumulation loop of `GetLocation` for a finite stored maximum `m`:
returns `(weighted_loc_sum, weighted_angle_sum, weight_sum)`. -/
def getLocationCore (E : ℝ → ℝ) (m : ℝ) (ps : List Particle) :
    Point × ℝ × ℝ :=
  ps.foldl
    (fun acc p =>
      let w := E (p.log_weight - m)
      ((acc.1.1 + p.loc.1 * w, acc.1.2 + p.loc.2 * w),
       acc.2.1 + p.angle * w, acc.2.2 + w))
    ((0, 0), 0, 0)

/-- `ParticleFilter::GetLocation`: divide the weighted sums by the weight sum.
When the stored maximum is the `-inf` sentinel every normalised weight is
non-finite (`exp(+inf)`), modelled by the `none` result. -/
noncomputable def GetLocation (E : ℝ → ℝ) (s : FilterState) : Option (Point × ℝ) :=
  s.maxLog.map fun m =>
    let r := getLocationCore E m s.particles
    ((r.1.1 / r.2.2, r.1.2 / r.2.2), r.2.1 / r.2.2)

/-- The denominator `weight_sum` that `GetLocation` divides by
(`none` when the stored maximum is the `-inf` sentinel). -/
def getLocationWeightSum (E : ℝ → ℝ) (s : FilterState) : Option ℝ :=
  s.maxLog.map fun m => (getLocationCore E m s.particles).2.2

/-- The per-particle normalised weights `exp(log_weight - max_logw)` that
`GetLocation` computes; `none` models a non-finite value (the stored maximum
being the `-inf` sentinel makes every one of them `exp(+inf) = +inf`). -/
def normalizedWeights (E : ℝ → ℝ) (s : FilterState) : List (Option ℝ) :=
  s.particles.map fun p => s.maxLog.map fun m => E (p.log_weight - m)

/-- Per-ray predicted range as `Update` computes it:
`(predicted_point - particle_lidar_loc).norm()` for scan index `i`. -/
noncomputable def predictedRangeAt (mapL : List Seg) (ranges : List ℝ)
    (rmin rmax amin amax : ℝ) (p : Particle) (i : ℕ) : ℝ :=
  pdist ((GetPredictedPointCloud mapL p.loc p.angle ranges.length rmin rmax
      amin amax).getD i (0, 0)) (lidarLoc p.loc p.angle)

/-- The emit loop of `Resample` stopped after the first `n` indices, with the
running sample point exposed: the state of the loop of `emitLoop` after
processing `i = 0 .. n-1`. -/
noncomputable def emitFold (E : ℝ → ℝ) (ps : List Particle) (d : ℝ) (F : ℕ)
    (u : ℝ) (n : ℕ) : ℝ × List Particle :=
  (List.range n).foldl
    (fun (st : ℝ × List Particle) i =>
      emitOne (ps.getD i defaultParticle) (breakpoint E ps i) d F st.1 st.2)
    (u, [])

theorem pnorm_horiz (x : ℝ) : pnorm (x, 0) = |x| := by
  simp [pnorm, Real.sqrt_sq_eq_abs]

theorem pdist_horiz (a b c : ℝ) : pdist (a, b) (c, b) = |a - c| := by
  simp [pdist, pnorm, Real.sqrt_sq_eq_abs]

/-- **C5.** For every filter state, `ObserveLaser` mutates particle log-weights
only if the distance moved since the last sensor update lies strictly between
0.1 m and 1.0 m; outside that open band every particle's pose and log-weight
is left unchanged by the call. -/
theorem observeLaser_gate_noop (E : ℝ → ℝ) (F : ℕ) (ranges : List ℝ)
    (rmin rmax amin amax : ℝ) (s : FilterState)
    (h : ¬ (0.1 < pdist s.prev_odom_loc s.last_update_loc ∧
            pdist s.prev_odom_loc s.last_update_loc < 1.0)) :
    ((ObserveLaser E F ranges rmin rmax amin amax s).1).particles = s.particles := by
  simp only [ObserveLaser]
  rw [if_neg h]

/-- Closed instance of the C5 theorem: a state that has not moved since its
last sensor update keeps its particle list. -/
theorem observeLaser_gate_noop_witness :
    ((ObserveLaser (fun _ => 1) 0 [] 0 0 0 0
        ⟨[⟨(1, 2), 3, 4⟩], (0, 0), 0, true, [], some 0, (0, 0), 0, 0,
          fun _ => 0, 0, 1⟩).1).particles = [⟨(1, 2), 3, 4⟩] :=
  observeLaser_gate_noop (fun _ => 1) 0 [] 0 0 0 0 _
    (by
      have : pdist ((0 : ℝ), (0 : ℝ)) ((0 : ℝ), (0 : ℝ)) = 0 := by
        rw [pdist_horiz]; norm_num
      simp only [this]
      norm_num)

/-- **C6.** An `ObserveOdometry` call that is the first after initialization,
or whose reported translation exceeds 1 m, changes no particle and resets the
stored odometry baseline to the reported values. -/
theorem observeOdometry_rebaseline (loc : Point) (angle : ℝ) (s : FilterState)
    (h : s.odom_initialized = false ∨
         1 < pnorm (loc.1 - s.prev_odom_loc.1, loc.2 - s.prev_odom_loc.2)) :
    (ObserveOdometry loc angle s).particles = s.particles ∧
    (ObserveOdometry loc angle s).prev_odom_loc = loc ∧
    (ObserveOdometry loc angle s).prev_odom_angle = angle ∧
    (ObserveOdometry loc angle s).last_update_loc = loc ∧
    (ObserveOdometry loc angle s).counter = 0 ∧
    (ObserveOdometry loc angle s).odom_initialized = true := by
  have hc : ¬ (s.odom_initialized = true ∧
      pnorm (loc.1 - s.prev_odom_loc.1, loc.2 - s.prev_odom_loc.2) < 1.0) := by
    rcases h with h | h
    · rintro ⟨h1, _⟩
      rw [h] at h1
      exact Bool.false_ne_true h1
    · rintro ⟨_, h2⟩
      have h2' : pnorm (loc.1 - s.prev_odom_loc.1, loc.2 - s.prev_odom_loc.2) < 1 := by
        norm_num at h2
        exact h2
      exact absurd h2' (not_lt.mpr (le_of_lt h))
  simp only [ObserveOdometry]
  rw [if_neg hc]
  simp [ResetOdomVariables]

/-- Closed instance of the C6 theorem: two odometry messages separated by 5 m
in one step leave the single particle unchanged and reset the baseline. -/
theorem observeOdometry_rebaseline_witness :
    (ObserveOdometry (5, 0) 1
        ⟨[⟨(2, 2), 2, 2⟩], (0, 0), 0, true, [], some 0, (7, 7), 3, 0,
          fun _ => 0, 0, 1⟩).particles = [⟨(2, 2), 2, 2⟩] ∧
    (ObserveOdometry (5, 0) 1
        ⟨[⟨(2, 2), 2, 2⟩], (0, 0), 0, true, [], some 0, (7, 7), 3, 0,
          fun _ => 0, 0, 1⟩).prev_odom_loc = (5, 0) ∧
    (ObserveOdometry (5, 0) 1
        ⟨[⟨(2, 2), 2, 2⟩], (0, 0), 0, true, [], some 0, (7, 7), 3, 0,
          fun _ => 0, 0, 1⟩).prev_odom_angle = 1 ∧
    (ObserveOdometry (5, 0) 1
        ⟨[⟨(2, 2), 2, 2⟩], (0, 0), 0, true, [], some 0, (7, 7), 3, 0,
          fun _ => 0, 0, 1⟩).last_update_loc = (5, 0) ∧
    (ObserveOdometry (5, 0) 1
        ⟨[⟨(2, 2), 2, 2⟩], (0, 0), 0, true, [], some 0, (7, 7), 3, 0,
          fun _ => 0, 0, 1⟩).counter = 0 ∧
    (ObserveOdometry (5, 0) 1
        ⟨[⟨(2, 2), 2, 2⟩], (0, 0), 0, true, [], some 0, (7, 7), 3, 0,
          fun _ => 0, 0, 1⟩).odom_initialized = true :=
  observeOdometry_rebaseline (5, 0) 1 _
    (by
      right
      have : (((5 : ℝ), (0 : ℝ)).1 - ((0 : ℝ), (0 : ℝ)).1,
              ((5 : ℝ), (0 : ℝ)).2 - ((0 : ℝ), (0 : ℝ)).2) = ((5 : ℝ), (0 : ℝ)) := by
        norm_num
      rw [show ((5 : ℝ) - 0, (0 : ℝ) - 0) = ((5 : ℝ), (0 : ℝ)) by norm_num, pnorm_horiz]
      norm_num)

/-- **C9.** `ObserveLaser` resets the stored generation maximum to the `-inf`
sentinel before checking the motion gate, so after a call whose gate fails the
stored maximum is still the sentinel and every normalised weight a subsequent
`GetLocation` computes is non-finite (modelled `none`). -/
theorem observeLaser_sentinel_nonfinite (E : ℝ → ℝ) (F : ℕ) (ranges : List ℝ)
    (rmin rmax amin amax : ℝ) (s : FilterState)
    (h : ¬ (0.1 < pdist s.prev_odom_loc s.last_update_loc ∧
            pdist s.prev_odom_loc s.last_update_loc < 1.0)) :
    ((ObserveLaser E F ranges rmin rmax amin amax s).1).maxLog = none ∧
    ∀ w ∈ normalizedWeights E ((ObserveLaser E F ranges rmin rmax amin amax s).1),
      w = none := by
  simp only [ObserveLaser]
  rw [if_neg h]
  refine ⟨rfl, ?_⟩
  intro w hw
  simp only [normalizedWeights, List.mem_map] at hw
  obtain ⟨p, _, hp⟩ := hw
  exact hp.symm.trans rfl

/-- Closed instance of the C9 theorem: after a gate-failing call on a state
with one particle, the maximum is the sentinel and the normalised weight list
is all-`none`. -/
theorem observeLaser_sentinel_nonfinite_witness :
    ((ObserveLaser (fun _ => 1) 0 [] 0 0 0 0
        ⟨[⟨(0, 0), 0, 7⟩], (0, 0), 0, true, [], some 3, (0, 0), 0, 0,
          fun _ => 0, 0, 1⟩).1).maxLog = none ∧
    ∀ w ∈ normalizedWeights (fun _ => 1)
        ((ObserveLaser (fun _ => 1) 0 [] 0 0 0 0
          ⟨[⟨(0, 0), 0, 7⟩], (0, 0), 0, true, [], some 3, (0, 0), 0, 0,
            fun _ => 0, 0, 1⟩).1), w = none :=
  observeLaser_sentinel_nonfinite (fun _ => 1) 0 [] 0 0 0 0 _
    (by
      have : pdist ((0 : ℝ), (0 : ℝ)) ((0 : ℝ), (0 : ℝ)) = 0 := by
        rw [pdist_horiz]; norm_num
      simp only [this]
      norm_num)

theorem decWeightsAux_all (m : ℝ) (N : ℕ) :
    ∀ (ps : List Particle) (i : ℕ), i + ps.length ≤ N →
      decWeightsAux m N i ps =
        ps.map fun p => { p with log_weight := p.log_weight - m } := by
  intro ps
  induction ps with
  | nil => intro i _; rfl
  | cons p rest ih =>
    intro i hi
    simp only [List.length_cons] at hi
    simp only [decWeightsAux, List.map_cons]
    rw [if_pos (by omega), ih (i + 1) (by omega)]

theorem decWeights_all (m : ℝ) (N : ℕ) (ps : List Particle) (h : ps.length ≤ N) :
    decWeights m N ps = ps.map fun p => { p with log_weight := p.log_weight - m } :=
  decWeightsAux_all m N ps 0 (by omega)

/-- **C10.** When `Resample` aborts because the total normalised weight is
zero, the abort is not atomic: every log-weight has already been decremented by
the stored generation maximum and one uniform draw has been consumed before the
early return; the particle poses, the particle count and the stored maximum are
unchanged on this path. -/
theorem resample_zero_weight_abort (E : ℝ → ℝ) (F : ℕ) (s : FilterState) (m : ℝ)
    (hm : s.maxLog = some m) (hodo : s.odom_initialized = true)
    (hlen : s.particles.length = s.numParticles) (hne : s.particles ≠ [])
    (hS : normalizedSum E (decWeights m s.numParticles s.particles)
            s.numParticles = 0) :
    (Resample E F s).particles.map Particle.log_weight
        = s.particles.map (fun p => p.log_weight - m) ∧
    (Resample E F s).particles.map Particle.loc = s.particles.map Particle.loc ∧
    (Resample E F s).particles.map Particle.angle
        = s.particles.map Particle.angle ∧
    (Resample E F s).particles.length = s.particles.length ∧
    (Resample E F s).rngIdx = s.rngIdx + 1 ∧
    (Resample E F s).maxLog = some m := by
  have hguard : ¬ (s.particles.isEmpty = true ∨ s.odom_initialized = false) := by
    rintro (hg | hg)
    · exact hne (List.isEmpty_iff.mp hg)
    · rw [hodo] at hg
      exact Bool.noConfusion hg
  have hd : normalizedSum E (decWeights m s.numParticles s.particles)
      s.numParticles / (s.numParticles : ℝ) = 0 := by
    rw [hS, zero_div]
  simp only [Resample]
  rw [if_neg hguard, hm]
  simp only [uniformDraw]
  rw [if_pos hd]
  rw [decWeights_all m s.numParticles s.particles (le_of_eq hlen)]
  refine ⟨?_, ?_, ?_, ?_, rfl, rfl⟩
  · simp [List.map_map, Function.comp_def]
  · simp [List.map_map, Function.comp_def]
  · simp [List.map_map, Function.comp_def]
  · simp

/-- Closed instance of the C10 theorem, with `exp` collapsed to the constant-0
function modelling total floating-point underflow of one particle's weight. -/
theorem resample_zero_weight_abort_witness :
    (Resample (fun _ => 0) 5
        ⟨[⟨(0, 0), 0, 3⟩], (0, 0), 0, true, [], some 1, (0, 0), 0, 0,
          fun _ => 0, 0, 1⟩).particles.map Particle.log_weight
        = ([⟨(0, 0), 0, 3⟩] : List Particle).map (fun p => p.log_weight - 1) ∧
    (Resample (fun _ => 0) 5
        ⟨[⟨(0, 0), 0, 3⟩], (0, 0), 0, true, [], some 1, (0, 0), 0, 0,
          fun _ => 0, 0, 1⟩).particles.map Particle.loc
        = ([⟨(0, 0), 0, 3⟩] : List Particle).map Particle.loc ∧
    (Resample (fun _ => 0) 5
        ⟨[⟨(0, 0), 0, 3⟩], (0, 0), 0, true, [], some 1, (0, 0), 0, 0,
          fun _ => 0, 0, 1⟩).particles.map Particle.angle
        = ([⟨(0, 0), 0, 3⟩] : List Particle).map Particle.angle ∧
    (Resample (fun _ => 0) 5
        ⟨[⟨(0, 0), 0, 3⟩], (0, 0), 0, true, [], some 1, (0, 0), 0, 0,
          fun _ => 0, 0, 1⟩).particles.length = 1 ∧
    (Resample (fun _ => 0) 5
        ⟨[⟨(0, 0), 0, 3⟩], (0, 0), 0, true, [], some 1, (0, 0), 0, 0,
          fun _ => 0, 0, 1⟩).rngIdx = 1 ∧
    (Resample (fun _ => 0) 5
        ⟨[⟨(0, 0), 0, 3⟩], (0, 0), 0, true, [], some 1, (0, 0), 0, 0,
          fun _ => 0, 0, 1⟩).maxLog = some 1 :=
  resample_zero_weight_abort (fun _ => 0) 5
    ⟨[⟨(0, 0), 0, 3⟩], (0, 0), 0, true, [], some 1, (0, 0), 0, 0,
      fun _ => 0, 0, 1⟩ 1 rfl rfl rfl
    (by simp)
    (by simp [normalizedSum, partWeight])

/-- **C8, counterexample.** On an empty particle set `GetLocation` computes a
weight sum of exactly zero and divides by it — contrary to the claim that it
"does not divide by a zero weight sum" (in IEEE floats the quotient is NaN;
field division gives the junk value `0 / 0`). -/
theorem getLocation_empty_divides_by_zero :
    getLocationWeightSum (fun _ => 1)
      ⟨[], (0, 0), 0, true, [], some 0, (0, 0), 0, 0, fun _ => 0, 0, 50⟩ = some 0 ∧
    GetLocation (fun _ => 1)
      ⟨[], (0, 0), 0, true, [], some 0, (0, 0), 0, 0, fun _ => 0, 0, 50⟩
      = some ((0 / 0, 0 / 0), 0 / 0) := by
  constructor <;> rfl

/-- **C8, amended.** `Resample` and `Update` do silently ignore invalid input
(`Resample` returns unchanged on an empty particle set; `Update` is the
identity before odometry initialisation), and every operation is total; but
`GetLocation` has no guard: on an empty particle set its weight sum is zero
and its result is the unguarded quotient by that zero sum. -/
theorem empty_input_handling (E : ℝ → ℝ) (F : ℕ) (s : FilterState) (m : ℝ)
    (hps : s.particles = []) (hm : s.maxLog = some m) :
    Resample E F s = s ∧
    (∀ (mapL : List Seg) (ranges : List ℝ) (rmin rmax amin amax : ℝ)
       (p : Particle), Update false mapL ranges rmin rmax amin amax p = p) ∧
    getLocationWeightSum E s = some 0 ∧
    GetLocation E s = some ((0 / 0, 0 / 0), 0 / 0) := by
  refine ⟨?_, ?_, ?_, ?_⟩
  · simp [Resample, hps]
  · intro mapL ranges rmin rmax amin amax p
    simp [Update]
  · simp [getLocationWeightSum, hm, hps, getLocationCore]
  · simp [GetLocation, hm, hps, getLocationCore]

/-- Closed instance of the amended C8 theorem. -/
theorem empty_input_handling_witness :
    Resample (fun _ => 1) 3
      ⟨[], (1, 1), 0, true, [], some 2, (0, 0), 0, 0, fun _ => 0, 0, 50⟩ =
      ⟨[], (1, 1), 0, true, [], some 2, (0, 0), 0, 0, fun _ => 0, 0, 50⟩ ∧
    (∀ (mapL : List Seg) (ranges : List ℝ) (rmin rmax amin amax : ℝ)
       (p : Particle), Update false mapL ranges rmin rmax amin amax p = p) ∧
    getLocationWeightSum (fun _ => 1)
      ⟨[], (1, 1), 0, true, [], some 2, (0, 0), 0, 0, fun _ => 0, 0, 50⟩ = some 0 ∧
    GetLocation (fun _ => 1)
      ⟨[], (1, 1), 0, true, [], some 2, (0, 0), 0, 0, fun _ => 0, 0, 50⟩
      = some ((0 / 0, 0 / 0), 0 / 0) :=
  empty_input_handling (fun _ => 1) 3
    ⟨[], (1, 1), 0, true, [], some 2, (0, 0), 0, 0, fun _ => 0, 0, 50⟩ 2 rfl rfl

theorem sqrt_four : Real.sqrt 4 = 2 := by
  rw [show (4 : ℝ) = 2 ^ 2 by norm_num]
  exact Real.sqrt_sq (by norm_num)

theorem odo_empty_step (loc : Point) (angle : ℝ) (s : FilterState)
    (hps : s.particles = []) (hodo : s.odom_initialized = true)
    (hmove : pnorm (loc.1 - s.prev_odom_loc.1, loc.2 - s.prev_odom_loc.2) < 1.0) :
    ObserveOdometry loc angle s =
      { s with particles := [], prev_odom_loc := loc, prev_odom_angle := angle } := by
  simp only [ObserveOdometry]
  rw [if_pos ⟨hodo, hmove⟩, hps]
  simp only [List.foldl_nil]

theorem laser_gated_nofire_step (E : ℝ → ℝ) (F : ℕ) (ranges : List ℝ)
    (rmin rmax amin amax : ℝ) (s : FilterState)
    (hps : s.particles = [])
    (hgate : 0.1 < pdist s.prev_odom_loc s.last_update_loc ∧
             pdist s.prev_odom_loc s.last_update_loc < 1.0)
    (hc : ¬ 5 < s.counter) :
    ObserveLaser E F ranges rmin rmax amin amax s =
      ({ s with
          particles := [],
          maxLog := none,
          last_update_loc := s.prev_odom_loc,
          counter := s.counter + 1 }, false) := by
  simp only [ObserveLaser]
  rw [if_pos hgate, hps]
  simp only [List.map_nil, List.foldl_nil]
  rw [if_neg hc]

/-- **C2, amended.** A gated `ObserveLaser` invokes `Resample` exactly when the
pre-call counter exceeds 5, in which case the counter is reset to 1, and
otherwise increments the counter; hence, from a fresh baseline (counter 0),
the first `Resample` happens on the 7th gated sensor update and every 6th
gated update thereafter — not on the 5th. -/
theorem observeLaser_resample_trigger (E : ℝ → ℝ) (F : ℕ) (ranges : List ℝ)
    (rmin rmax amin amax : ℝ) (s : FilterState)
    (hgate : 0.1 < pdist s.prev_odom_loc s.last_update_loc ∧
             pdist s.prev_odom_loc s.last_update_loc < 1.0) :
    ((ObserveLaser E F ranges rmin rmax amin amax s).2 = true ↔ 5 < s.counter) ∧
    (ObserveLaser E F ranges rmin rmax amin amax s).1.counter
      = if 5 < s.counter then 1 else s.counter + 1 := by
  simp only [ObserveLaser]
  rw [if_pos hgate]
  by_cases h : 5 < s.counter
  · rw [if_pos h, if_pos h]
    simp [h]
  · rw [if_neg h, if_neg h]
    simp [h]

/-- Closed instance of the amended C2 theorem, on a gated state whose counter
already exceeds 5. -/
theorem observeLaser_resample_trigger_witness :
    ((ObserveLaser (fun _ => 1) 9 [] 0 1 0 0
        ⟨[], (0.5, 0), 0, true, [], some 0, (0, 0), 7, 0,
          fun _ => 0, 0, 50⟩).2 = true ↔ 5 < 7) ∧
    (ObserveLaser (fun _ => 1) 9 [] 0 1 0 0
        ⟨[], (0.5, 0), 0, true, [], some 0, (0, 0), 7, 0,
          fun _ => 0, 0, 50⟩).1.counter = if 5 < 7 then 1 else 7 + 1 :=
  observeLaser_resample_trigger (fun _ => 1) 9 [] 0 1 0 0 _
    (by norm_num [pdist, pnorm, sqrt_four])

/-- **C2, counterexample.** Starting from a fresh baseline (counter 0) and
interleaving in-bound odometry steps so that every `ObserveLaser` passes the
motion gate, the 5th gated `ObserveLaser` call does **not** invoke `Resample`
(the returned invocation flag is `false`). -/
theorem resample_not_on_fifth_gated_update :
    (ObserveLaser (fun _ => 1) 9 [] 0 1 0 0
      (ObserveOdometry (2.5, 0) 0
        ((ObserveLaser (fun _ => 1) 9 [] 0 1 0 0
          (ObserveOdometry (2, 0) 0
            ((ObserveLaser (fun _ => 1) 9 [] 0 1 0 0
              (ObserveOdometry (1.5, 0) 0
                ((ObserveLaser (fun _ => 1) 9 [] 0 1 0 0
                  (ObserveOdometry (1, 0) 0
                    ((ObserveLaser (fun _ => 1) 9 [] 0 1 0 0
                      (ObserveOdometry (0.5, 0) 0
                        ⟨[], (0, 0), 0, true, [], some 0, (0, 0), 0, 0,
                          fun _ => 0, 0, 50⟩)).1))).1))).1))).1))).2 = false := by
  norm_num [ObserveOdometry, ObserveLaser, pdist, pnorm, sqrt_four]

theorem foldl_ite_add_eq_sum (n : ℕ) (c : ℕ → Prop) [DecidablePred c] (v : ℕ → ℝ) :
    (List.range n).foldl (fun acc i => if c i then acc else acc + v i) 0
      = ∑ i ∈ Finset.range n, if c i then 0 else v i := by
  induction n with
  | zero => simp
  | succ n ih =>
    rw [List.range_succ, List.foldl_append, Finset.sum_range_succ, ih]
    simp only [List.foldl_cons, List.foldl_nil]
    by_cases h : c n
    · rw [if_pos h, if_pos h, add_zero]
    · rw [if_neg h, if_neg h]

theorem getD_range_map (f : ℕ → ℝ) (n i : ℕ) (h : i < n) :
    ((List.range n).map f).getD i 0 = f i := by
  rw [List.getD_eq_getElem?_getD]
  simp [List.getElem?_map, List.getElem?_range h]

/-- **C7.** One `Update` call increments the particle's log-weight by the sum,
over the rays that pass the usable-band test, of `-d^2 / var_obs` with
`d = clamp(measured - predicted, -d_short, +d_long)` (the measured range in the
residual being the lockstep-subsampled one). -/
theorem update_increment_per_kept_ray (mapL : List Seg) (ranges : List ℝ)
    (rmin rmax amin amax : ℝ) (p : Particle) :
    (Update true mapL ranges rmin rmax amin amax p).log_weight
      = p.log_weight +
        ∑ i ∈ (Finset.range ((GetPredictedPointCloud mapL p.loc p.angle
            ranges.length rmin rmax amin amax).length)).filter (fun i =>
            ¬ (predictedRangeAt mapL ranges rmin rmax amin amax p i > rmax ∨
               predictedRangeAt mapL ranges rmin rmax amin amax p i < rmin ∨
               ranges.getD i 0 > 0.95 * rmax ∨ ranges.getD i 0 < 1.05 * rmin)),
          -(max (-d_short)
              (min (ranges.getD ((ranges.length /
                    (GetPredictedPointCloud mapL p.loc p.angle ranges.length
                      rmin rmax amin amax).length) * i) 0
                  - predictedRangeAt mapL ranges rmin rmax amin amax p i)
                d_long)) ^ 2 / var_obs := by
  simp only [Update, predictedRangeAt]
  rw [if_neg (by simp : ¬ (true = false))]
  simp only []
  rw [foldl_ite_add_eq_sum, Finset.sum_filter]
  congr 1
  apply Finset.sum_congr rfl
  intro i hi
  rw [Finset.mem_range] at hi
  rw [ite_not]
  by_cases h : pdist ((GetPredictedPointCloud mapL p.loc p.angle ranges.length
          rmin rmax amin amax).getD i (0, 0)) (lidarLoc p.loc p.angle) > rmax ∨
      pdist ((GetPredictedPointCloud mapL p.loc p.angle ranges.length rmin rmax
          amin amax).getD i (0, 0)) (lidarLoc p.loc p.angle) < rmin ∨
      ranges.getD i 0 > 0.95 * rmax ∨ ranges.getD i 0 < 1.05 * rmin
  · rw [if_pos h, if_pos h]
  · rw [if_neg h, if_neg h]
    rw [getD_range_map _ _ _ hi, max_comm]

/-- **C3, amended.** In `Update`, the residual of ray `i` reads the
lockstep-subsampled measurement `ranges[stride*i]` (stride = ranges.size / M),
but the usable-band drop test reads `ranges[i]`, the raw measurement at index
`i` — the two are not the same value in general. -/
theorem update_gate_raw_residual_lockstep (mapL : List Seg) (ranges : List ℝ)
    (rmin rmax amin amax : ℝ) (p : Particle) :
    (Update true mapL ranges rmin rmax amin amax p).log_weight
      = p.log_weight +
        ∑ i ∈ Finset.range ((GetPredictedPointCloud mapL p.loc p.angle
            ranges.length rmin rmax amin amax).length),
          if predictedRangeAt mapL ranges rmin rmax amin amax p i > rmax ∨
             predictedRangeAt mapL ranges rmin rmax amin amax p i < rmin ∨
             ranges.getD i 0 > 0.95 * rmax ∨ ranges.getD i 0 < 1.05 * rmin
          then 0
          else -(max (min (ranges.getD ((ranges.length /
                    (GetPredictedPointCloud mapL p.loc p.angle ranges.length
                      rmin rmax amin amax).length) * i) 0
                  - predictedRangeAt mapL ranges rmin rmax amin amax p i)
                d_long) (-d_short)) ^ 2 / var_obs := by
  simp only [Update, predictedRangeAt]
  rw [if_neg (by simp : ¬ (true = false))]
  simp only []
  rw [foldl_ite_add_eq_sum]
  congr 1
  apply Finset.sum_congr rfl
  intro i hi
  rw [Finset.mem_range] at hi
  by_cases h : pdist ((GetPredictedPointCloud mapL p.loc p.angle ranges.length
          rmin rmax amin amax).getD i (0, 0)) (lidarLoc p.loc p.angle) > rmax ∨
      pdist ((GetPredictedPointCloud mapL p.loc p.angle ranges.length rmin rmax
          amin amax).getD i (0, 0)) (lidarLoc p.loc p.angle) < rmin ∨
      ranges.getD i 0 > 0.95 * rmax ∨ ranges.getD i 0 < 1.05 * rmin
  · rw [if_pos h, if_pos h]
  · rw [if_neg h, if_neg h]
    rw [getD_range_map _ _ _ hi]

theorem sqrt_hundred : Real.sqrt 100 = 10 := by
  rw [show (100 : ℝ) = 10 ^ 2 by norm_num]
  exact Real.sqrt_sq (by norm_num)

/-- **C3, counterexample.** With 20 measured ranges on an empty map
(`range_min = 0`, `range_max = 10`, both scan-angle bounds 0, particle at the
origin), `Update` and the spec's lockstep version disagree: ray 1's drop test
reads `ranges[1] = 5` (kept) while the lockstep measurement is
`ranges[10] = 9.9 > 0.95 * range_max` (dropped by the spec's rule), so the two
computations yield different log-weights. -/
theorem update_drop_test_not_lockstep :
    Update true [] [5, 5, 5, 5, 5, 5, 5, 5, 5, 5, 9.9, 5, 5, 5, 5, 5, 5, 5, 5, 5]
        0 10 0 0 ⟨(0, 0), 0, 0⟩
      ≠ UpdateSpec true [] [5, 5, 5, 5, 5, 5, 5, 5, 5, 5, 9.9, 5, 5, 5, 5, 5, 5, 5, 5, 5]
        0 10 0 0 ⟨(0, 0), 0, 0⟩ := by
  intro h
  have h2 := congrArg Particle.log_weight h
  norm_num [Update, UpdateSpec, GetPredictedPointCloud, nearestIntersection,
    rayAngle, farPoint, lidarLoc, raySeg, pdist, pnorm, d_short, d_long, var_obs,
    Real.cos_zero, Real.sin_zero, sqrt_hundred, List.getD_cons_zero,
    List.getD_cons_succ, min_def, max_def, List.range_succ] at h2

theorem foldNear_tag_mono (ray : Seg) (loc : Point) :
    ∀ (L : List Seg) (b : Point × ℝ),
      (L.foldl (fun best l =>
        match segIntersection l ray with
        | none => best
        | some pt => if pdist pt loc < best.2 then (pt, pdist pt loc) else best) b).2
        ≤ b.2 := by
  intro L
  induction L with
  | nil => intro b; simp
  | cons a L ih =>
    intro b
    simp only [List.foldl_cons]
    rcases h : segIntersection a ray with _ | pt
    · simp only [h]
      exact ih b
    · simp only [h]
      by_cases hd : pdist pt loc < b.2
      · rw [if_pos hd]
        exact le_trans (ih (pt, pdist pt loc)) (le_of_lt hd)
      · rw [if_neg hd]
        exact ih b

theorem foldNear_le_hit (ray : Seg) (loc : Point) :
    ∀ (L : List Seg) (b : Point × ℝ) (l : Seg) (pt : Point), l ∈ L →
      segIntersection l ray = some pt →
      (L.foldl (fun best l =>
        match segIntersection l ray with
        | none => best
        | some pt => if pdist pt loc < best.2 then (pt, pdist pt loc) else best) b).2
        ≤ pdist pt loc := by
  intro L
  induction L with
  | nil => intro b l pt hmem; exact absurd hmem (List.not_mem_nil l)
  | cons a L ih =>
    intro b l pt hmem hi
    simp only [List.foldl_cons]
    rcases List.mem_cons.mp hmem with rfl | hmem'
    · simp only [hi]
      by_cases hd : pdist pt loc < b.2
      · rw [if_pos hd]
        exact foldNear_tag_mono ray loc L (pt, pdist pt loc)
      · rw [if_neg hd]
        exact le_trans (foldNear_tag_mono ray loc L b) (not_lt.mp hd)
    · exact ih _ l pt hmem' hi

theorem foldNear_result (ray : Seg) (loc : Point) :
    ∀ (L : List Seg) (b : Point × ℝ),
      (L.foldl (fun best l =>
        match segIntersection l ray with
        | none => best
        | some pt => if pdist pt loc < best.2 then (pt, pdist pt loc) else best) b) = b ∨
      pdist (L.foldl (fun best l =>
        match segIntersection l ray with
        | none => best
        | some pt => if pdist pt loc < best.2 then (pt, pdist pt loc) else best) b).1 loc
        = (L.foldl (fun best l =>
        match segIntersection l ray with
        | none => best
        | some pt => if pdist pt loc < best.2 then (pt, pdist pt loc) else best) b).2 := by
  intro L
  induction L with
  | nil => intro b; left; rfl
  | cons a L ih =>
    intro b
    simp only [List.foldl_cons]
    rcases h : segIntersection a ray with _ | pt
    · simp only [h]
      exact ih b
    · simp only [h]
      by_cases hd : pdist pt loc < b.2
      · rw [if_pos hd]
        rcases ih (pt, pdist pt loc) with he | hp
        · right
          rw [he]
        · right
          exact hp
      · rw [if_neg hd]
        exact ih b

/-- **C4, amended.** The predicted scan point that `GetPredictedPointCloud`
selects is nearest with respect to the particle location `loc`, not the laser
origin: for any map segment whose intersection with the query ray is `pt`, the
returned point is either the ray's far endpoint (and then `pt` is at distance
at least `range_max` from `loc`), or a point whose distance to `loc` is at most
that of `pt`; ties are broken in favour of the earlier map segment.  The
predicted range used by `Update` is the distance from the chosen point to the
laser origin (`predictedRangeAt`). -/
theorem nearest_intersection_wrt_particle_loc (mapL : List Seg) (ray : Seg)
    (loc farPt : Point) (rmax : ℝ) (l : Seg) (pt : Point)
    (hl : l ∈ mapL) (hpt : segIntersection l ray = some pt) :
    (nearestIntersection mapL ray loc farPt rmax = farPt ∧ rmax ≤ pdist pt loc) ∨
    pdist (nearestIntersection mapL ray loc farPt rmax) loc ≤ pdist pt loc := by
  have h2 := foldNear_le_hit ray loc mapL (farPt, rmax) l pt hl hpt
  rcases foldNear_result ray loc mapL (farPt, rmax) with he | hp
  · left
    refine ⟨?_, ?_⟩
    · simp only [nearestIntersection, he]
    · calc rmax = ((farPt, rmax) : Point × ℝ).2 := rfl
        _ ≤ pdist pt loc := by rw [← he]; exact h2
  · right
    calc pdist (nearestIntersection mapL ray loc farPt rmax) loc
        = _ := hp
      _ ≤ pdist pt loc := h2

/-- **C4, counterexample.** Particle at the origin with heading 0 (laser origin
(0.2, 0)), one ray pointing along angle π, map of two vertical segments
crossing the ray at (0.15, 0) and (-0.1, 0).  The predicted scan point is
(-0.1, 0), the intersection nearest the particle location — even though the
intersection (0.15, 0) is strictly nearer the laser origin.  So the predicted
point is not the map intersection nearest the laser origin. -/
theorem pdist_horiz_zero (a : ℝ) : pdist (a, (0 : ℝ)) (0 : Point) = |a| := by
  rw [show (0 : Point) = ((0 : ℝ), (0 : ℝ)) from rfl, pdist_horiz, sub_zero]

theorem predicted_point_not_nearest_laser_origin :
    GetPredictedPointCloud [⟨(0.15, -1), (0.15, 1)⟩, ⟨(-0.1, -1), (-0.1, 1)⟩]
        (0, 0) 0 10 0 1 Real.pi Real.pi = [(-0.1, 0)] ∧
    segIntersection ⟨(0.15, -1), (0.15, 1)⟩
        (raySeg (lidarLoc (0, 0) 0) (rayAngle 0 10 Real.pi Real.pi 0) 0 1)
      = some (0.15, 0) ∧
    pdist (0.15, 0) (lidarLoc (0, 0) 0) < pdist (-0.1, 0) (lidarLoc (0, 0) 0) := by
  have e1 : pdist ((3 : ℝ) / 20, (0 : ℝ)) (0 : Point) = 3 / 20 := by
    rw [pdist_horiz_zero, abs_of_nonneg (show (0 : ℝ) ≤ 3 / 20 by norm_num)]
  have e2 : pdist (-((1 : ℝ) / 10), (0 : ℝ)) (0 : Point) = 1 / 10 := by
    rw [pdist_horiz_zero, abs_of_nonpos (show -((1 : ℝ) / 10) ≤ 0 by norm_num)]
    norm_num
  refine ⟨?_, ?_, ?_⟩
  · norm_num [GetPredictedPointCloud, nearestIntersection, segIntersection,
      raySeg, farPoint, rayAngle, lidarLoc, pcross, e1, e2,
      Real.cos_pi, Real.sin_pi, Real.cos_zero, Real.sin_zero, List.range_succ]
  · norm_num [segIntersection, raySeg, rayAngle, lidarLoc, pcross,
      Real.cos_pi, Real.sin_pi, Real.cos_zero, Real.sin_zero]
  · norm_num [lidarLoc, pdist_horiz, Real.cos_zero, Real.sin_zero]
    rw [abs_of_nonneg (show (0 : ℝ) ≤ 1 / 20 by norm_num),
        abs_of_nonneg (show (0 : ℝ) ≤ 3 / 10 by norm_num)]
    norm_num

/-- Closed instance of the amended C4 theorem on a one-segment map. -/
theorem nearest_intersection_wrt_particle_loc_witness :
    (nearestIntersection [⟨(-0.1, -1), (-0.1, 1)⟩] ⟨(0.2, 0), (-0.8, 0)⟩ (0, 0)
        (-0.8, 0) 1 = (-0.8, 0) ∧ 1 ≤ pdist (-0.1, 0) (0, 0)) ∨
    pdist (nearestIntersection [⟨(-0.1, -1), (-0.1, 1)⟩] ⟨(0.2, 0), (-0.8, 0)⟩
        (0, 0) (-0.8, 0) 1) (0, 0) ≤ pdist (-0.1, 0) (0, 0) :=
  nearest_intersection_wrt_particle_loc [⟨(-0.1, -1), (-0.1, 1)⟩]
    ⟨(0.2, 0), (-0.8, 0)⟩ (0, 0) (-0.8, 0) 1 ⟨(-0.1, -1), (-0.1, 1)⟩ (-0.1, 0)
    (by simp)
    (by norm_num [segIntersection, pcross])

theorem emitOne_exact (p : Particle) (c d : ℝ) :
    ∀ (k F : ℕ) (sp : ℝ) (acc : List Particle), k ≤ F →
      (∀ j : ℕ, j < k → sp + (j : ℝ) * d < c) →
      ¬ (sp + (k : ℝ) * d < c) →
      emitOne p c d F sp acc = (sp + (k : ℝ) * d, acc ++ List.replicate k p) := by
  intro k
  induction k with
  | zero =>
    intro F sp acc _ _ hk
    have hc : ¬ (c > sp) := by simpa using hk
    cases F with
    | zero => simp [emitOne]
    | succ f =>
      simp only [emitOne]
      rw [if_neg hc]
      simp
  | succ k ih =>
    intro F sp acc hkF hlt hk
    have h0 : sp < c := by
      have := hlt 0 (Nat.succ_pos k)
      simpa using this
    cases F with
    | zero => omega
    | succ f =>
      simp only [emitOne]
      rw [if_pos h0]
      rw [ih f (sp + d) (acc ++ [p]) (by omega)
        (by
          intro j hj
          have := hlt (j + 1) (by omega)
          push_cast at this ⊢
          linarith)
        (by
          intro hcon
          apply hk
          push_cast at hcon ⊢
          linarith)]
      have e1 : sp + d + (k : ℝ) * d = sp + ((k + 1 : ℕ) : ℝ) * d := by
        push_cast
        ring
      have e2 : (acc ++ [p]) ++ List.replicate k p = acc ++ List.replicate (k + 1) p := by
        rw [List.append_assoc, List.singleton_append, ← List.replicate_succ]
      rw [e1, e2]

theorem emitFold_invariant (E : ℝ → ℝ) (ps : List Particle) (d u : ℝ) (N F : ℕ)
    (hE : ∀ x, 0 ≤ E x) (hd : 0 < d) (hu : 0 ≤ u) (hud : u < d)
    (hS : normalizedSum E ps N = (N : ℝ) * d) (hF : N + 1 ≤ F) :
    ∀ n, n ≤ N →
      (emitFold E ps d F u n).1
          = u + ((emitFold E ps d F u n).2.length : ℝ) * d ∧
      normalizedSum E ps n ≤ (emitFold E ps d F u n).1 ∧
      (emitFold E ps d F u n).1 < normalizedSum E ps n + d := by
  intro n
  induction n with
  | zero =>
    intro _
    refine ⟨by simp [emitFold], ?_, ?_⟩
    · simpa [emitFold, normalizedSum] using hu
    · simp only [emitFold, List.range_zero, List.foldl_nil, normalizedSum,
        Finset.range_zero, Finset.sum_empty]
      linarith
  | succ n ih =>
    intro hn1
    have hn : n ≤ N := by omega
    obtain ⟨ih1, ih2, ih3⟩ := ih hn
    have hstep : emitFold E ps d F u (n + 1)
        = emitOne (ps.getD n defaultParticle) (breakpoint E ps n) d F
            (emitFold E ps d F u n).1 (emitFold E ps d F u n).2 := by
      simp [emitFold, List.range_succ]
    set sp := (emitFold E ps d F u n).1 with hsp
    set out := (emitFold E ps d F u n).2 with hout
    classical
    have hex : ∃ k : ℕ, ¬ (sp + (k : ℝ) * d < breakpoint E ps n) := by
      obtain ⟨k, hk⟩ := exists_nat_ge ((breakpoint E ps n - sp) / d)
      refine ⟨k, ?_⟩
      rw [div_le_iff₀ hd] at hk
      intro hcon
      linarith
    have hspec : ¬ (sp + ((Nat.find hex : ℕ) : ℝ) * d < breakpoint E ps n) :=
      Nat.find_spec hex
    have hmin : ∀ j, j < Nat.find hex → sp + (j : ℝ) * d < breakpoint E ps n := by
      intro j hj
      exact not_not.mp (Nat.find_min hex hj)
    have hw : ∀ i, 0 ≤ partWeight E ps i := fun i => hE _
    have hBsucc : normalizedSum E ps (n + 1)
        = normalizedSum E ps n + partWeight E ps n := Finset.sum_range_succ _ _
    have hBp_eq : breakpoint E ps n = normalizedSum E ps (n + 1) := rfl
    have hmono : normalizedSum E ps (n + 1) ≤ normalizedSum E ps N := by
      apply Finset.sum_le_sum_of_subset_of_nonneg
      · exact Finset.range_subset.mpr hn1
      · intro i _ _
        exact hw i
    have hsp0 : 0 ≤ sp := by
      rw [ih1]
      have : (0 : ℝ) ≤ ((out.length : ℕ) : ℝ) * d :=
        mul_nonneg (Nat.cast_nonneg _) hd.le
      linarith
    have hk0F : Nat.find hex ≤ F := by
      rcases Nat.eq_zero_or_pos (Nat.find hex) with h0 | hpos
      · omega
      · obtain ⟨j, hj'⟩ : ∃ j, Nat.find hex = j + 1 := ⟨Nat.find hex - 1, by omega⟩
        have hj := hmin j (by omega)
        have hlt : sp + (j : ℝ) * d < (N : ℝ) * d := by
          calc sp + (j : ℝ) * d < breakpoint E ps n := hj
            _ = normalizedSum E ps (n + 1) := hBp_eq
            _ ≤ normalizedSum E ps N := hmono
            _ = (N : ℝ) * d := hS
        have hjd : (j : ℝ) * d < (N : ℝ) * d := by linarith
        have hjN : j < N := by exact_mod_cast (mul_lt_mul_right hd).mp hjd
        omega
    have hres := emitOne_exact (ps.getD n defaultParticle) (breakpoint E ps n) d
      (Nat.find hex) F sp out hk0F hmin hspec
    rw [hstep, hres]
    refine ⟨?_, ?_, ?_⟩
    · simp only [List.length_append, List.length_replicate]
      push_cast
      linarith [ih1]
    · rw [← hBp_eq]
      exact not_lt.mp hspec
    · rcases Nat.eq_zero_or_pos (Nat.find hex) with h0 | hpos
      · rw [h0]
        have hstepup : normalizedSum E ps n ≤ normalizedSum E ps (n + 1) := by
          rw [hBsucc]
          linarith [hw n]
        rw [← hBp_eq] at hstepup ⊢
        push_cast
        linarith
      · obtain ⟨j, hj'⟩ : ∃ j, Nat.find hex = j + 1 := ⟨Nat.find hex - 1, by omega⟩
        have hj := hmin j (by omega)
        rw [hj']
        push_cast
        push_cast at hj
        linarith

theorem emitLoop_length (E : ℝ → ℝ) (ps : List Particle) (d u : ℝ) (N F : ℕ)
    (hE : ∀ x, 0 ≤ E x) (hd : 0 < d) (hu : 0 ≤ u) (hud : u < d)
    (hS : normalizedSum E ps N = (N : ℝ) * d) (hF : N + 1 ≤ F) :
    (emitLoop E ps d N F u).length = N := by
  obtain ⟨h1, h2, h3⟩ :=
    emitFold_invariant E ps d u N F hE hd hu hud hS hF N le_rfl
  rw [hS] at h2 h3
  rw [h1] at h2 h3
  have hup : (emitFold E ps d F u N).2.length ≤ N := by
    have ha : ((emitFold E ps d F u N).2.length : ℝ) * d < ((N : ℝ) + 1) * d := by
      ring_nf
      ring_nf at h3
      linarith
    have hb : (emitFold E ps d F u N).2.length < N + 1 := by
      exact_mod_cast (mul_lt_mul_right hd).mp ha
    omega
  have hlow : N ≤ (emitFold E ps d F u N).2.length := by
    have ha : (N : ℝ) * d < (((emitFold E ps d F u N).2.length : ℝ) + 1) * d := by
      ring_nf
      ring_nf at h2
      linarith
    have hb : N < (emitFold E ps d F u N).2.length + 1 := by
      exact_mod_cast (mul_lt_mul_right hd).mp ha
    omega
  have heq : emitLoop E ps d N F u = (emitFold E ps d F u N).2 := rfl
  rw [heq]
  omega

/-- **C1.** For a particle set of the configured size `N > 0` whose total
normalised weight `S` is positive, and a uniform draw `u ∈ [0, S/N)` (the unit
draw `r ∈ [0, 1)` scaled by `division_size = S/N`), `Resample` emits exactly
`N` particles: after `Resample` the particle count equals the configured `N`.
`E` models floating-point `exp` (nonnegative); the fuel `F ≥ N + 1` bounds the
inner `while` loop, which under these hypotheses iterates at most `N` times. -/
theorem resample_emits_configured_count (E : ℝ → ℝ) (F : ℕ) (s : FilterState)
    (m : ℝ) (N : ℕ)
    (hN : s.numParticles = N) (hNpos : 0 < N) (hlen : s.particles.length = N)
    (hodo : s.odom_initialized = true) (hm : s.maxLog = some m)
    (hE : ∀ x, 0 ≤ E x)
    (hS : 0 < normalizedSum E (decWeights m N s.particles) N)
    (hr0 : 0 ≤ s.rng s.rngIdx) (hr1 : s.rng s.rngIdx < 1)
    (hF : N + 1 ≤ F) :
    (Resample E F s).particles.length = N := by
  have hne : s.particles ≠ [] := by
    intro h
    rw [h] at hlen
    simp at hlen
    omega
  have hguard : ¬ (s.particles.isEmpty = true ∨ s.odom_initialized = false) := by
    rintro (hg | hg)
    · exact hne (List.isEmpty_iff.mp hg)
    · rw [hodo] at hg
      exact Bool.noConfusion hg
  have hNR : (0 : ℝ) < (N : ℝ) := by exact_mod_cast hNpos
  have hdpos : 0 < normalizedSum E (decWeights m N s.particles) N / (N : ℝ) :=
    div_pos hS hNR
  simp only [Resample]
  rw [if_neg hguard, hm]
  simp only [uniformDraw]
  rw [hN]
  rw [if_neg (ne_of_gt hdpos)]
  have he : (0 : ℝ) + (normalizedSum E (decWeights m N s.particles) N / (N : ℝ) - 0)
        * s.rng s.rngIdx
      = (normalizedSum E (decWeights m N s.particles) N / (N : ℝ))
        * s.rng s.rngIdx := by
    ring
  rw [he]
  exact emitLoop_length E (decWeights m N s.particles)
    (normalizedSum E (decWeights m N s.particles) N / (N : ℝ))
    ((normalizedSum E (decWeights m N s.particles) N / (N : ℝ)) * s.rng s.rngIdx)
    N F hE hdpos (mul_nonneg hdpos.le hr0)
    (mul_lt_of_lt_one_right hdpos hr1)
    (by field_simp) hF

/-- Closed instance of the C1 theorem: one particle of weight `exp(0) = 1`
(with `exp` instanced to the constant-1 function), total `S = 1 > 0`, unit draw
`r = 0`, fuel 2. -/
theorem resample_emits_configured_count_witness :
    (Resample (fun _ => 1) 2
        ⟨[⟨(0, 0), 0, 0⟩], (0, 0), 0, true, [], some 0, (0, 0), 0, 0,
          fun _ => 0, 0, 1⟩).particles.length = 1 :=
  resample_emits_configured_count (fun _ => 1) 2
    ⟨[⟨(0, 0), 0, 0⟩], (0, 0), 0, true, [], some 0, (0, 0), 0, 0,
      fun _ => 0, 0, 1⟩ 0 1 rfl (by norm_num) rfl rfl rfl
    (fun x => by norm_num)
    (by norm_num [normalizedSum, partWeight, decWeights, decWeightsAux])
    (by norm_num) (by norm_num) (by norm_num)
